import Mathlib

/-!
Verification of the yakui-miniquad adapter (src/lib.rs): the draw list
compiler (update_buffers), the texture cache (update_textures /
drop_textures), and the submitter loop inside paint.

Modelling conventions:
* f32 vertex payloads (positions, texcoords, colors) are copied by the
  adapter but never computed with, so they are embedded as opaque bit
  patterns (Nat).
* Clip rectangles are embedded with natural-number coordinates; the
  source converts yakui f32 rects with as_uvec2, which is the identity
  on non-negative integral coordinates.
* Machine integers are Nat with explicit truncation: u16 arithmetic in
  the index rewrite and u32 arithmetic in index ranges and scissor
  computation carry explicit `% 2 ^ 16` / `% 2 ^ 32`.
* The miniquad rendering context is embedded as an explicit state (for
  textures) plus a trace of backend calls (for buffers and draws).
-/

namespace YakuiMiniquad

/-- Opaque f32 bit pattern: the adapter copies these values, never
computes with them. -/
abbrev F32 := Nat

abbrev Vec2 := F32 × F32

abbrev Vec4 := F32 × F32 × F32 × F32

/-- yakui_core::paint::Vertex: the UI engine's vertex layout. -/
structure YVertex where
  position : Vec2
  texcoord : Vec2
  color : Vec4
deriving DecidableEq

/-- YakuiVertex (lib.rs): the repacked vertex layout uploaded to the
backend. -/
structure YakuiVertex where
  pos : Vec2
  texcoord : Vec2
  color : Vec4
deriving DecidableEq

/-- The repacking closure in update_buffers:
`|v| YakuiVertex { pos: v.position, texcoord: v.texcoord, color: v.color }`. -/
def repack (v : YVertex) : YakuiVertex :=
  { pos := v.position, texcoord := v.texcoord, color := v.color }

/-- yakui_core::paint::Pipeline (non_exhaustive): Main, Text, or any
other variant (matched by `_ => continue` in the submitter). -/
inductive YPipeline where
  | Main
  | Text
  | Other
deriving DecidableEq

/-- A yakui Rect restricted to integral coordinates (pos, size); the
source applies as_uvec2 which is the identity here. -/
structure URect where
  posx : Nat
  posy : Nat
  sizex : Nat
  sizey : Nat
deriving DecidableEq

/-- One paint call from the UI engine (yakui PaintMesh): vertices,
16-bit local indices, optional texture handle, pipeline, clip. -/
structure Mesh where
  vertices : List YVertex
  indices : List Nat
  texture : Option Nat
  pipeline : YPipeline
  clip : Option URect
deriving DecidableEq

/-- DrawCommand (lib.rs): index_range (a Range of u32, embedded as the
two endpoints), resolved backend texture, pipeline, clip. -/
structure DrawCommand where
  index_start : Nat
  index_end : Nat
  texture : Nat
  pipeline : YPipeline
  clip : Option URect
deriving DecidableEq

/-- Texture cache mapping: ManagedTextureId to backend TextureId,
embedded as an association list standing for the source HashMap. -/
abbrev TexMap := List (Nat × Nat)

/-- HashMap::get. -/
def texGet : TexMap → Nat → Option Nat
  | [], _ => none
  | (k, v) :: rest, id => if k = id then some v else texGet rest id

/-- HashMap::insert (overwrites any prior entry for the key). -/
def texPut (m : TexMap) (k v : Nat) : TexMap :=
  (k, v) :: m.filter (fun p => decide (p.1 ≠ k))

/-- HashMap::remove. -/
def texDel (m : TexMap) (k : Nat) : TexMap :=
  m.filter (fun p => decide (p.1 ≠ k))

/-- `mesh.texture.and_then(|i| self.textures.get(&i))` followed by
`unwrap_or(&self.default_texture)` in update_buffers. -/
def resolveTexture (m : TexMap) (default_texture : Nat) (t : Option Nat) : Nat :=
  ((t.bind (texGet m)).getD default_texture)

/-! ## Draw list compiler (update_buffers, pure accumulation part) -/

/-- One iteration of the `for mesh in commands` loop in update_buffers:
repack vertices, rewrite indices by `base = draw_vertices.len() as u16`
(u16 arithmetic, truncation explicit), record the command with its u32
index range. -/
def compileStep (texmap : TexMap) (default_texture : Nat)
    (acc : List YakuiVertex × List Nat × List DrawCommand) (mesh : Mesh) :
    List YakuiVertex × List Nat × List DrawCommand :=
  let dv := acc.1
  let di := acc.2.1
  let dc := acc.2.2
  let base := dv.length % 2 ^ 16
  let indices := mesh.indices.map (fun i => (base + i) % 2 ^ 16)
  let start := di.length % 2 ^ 32
  let stop := (start + mesh.indices.length % 2 ^ 32) % 2 ^ 32
  let texture := resolveTexture texmap default_texture mesh.texture
  (dv ++ mesh.vertices.map repack, di ++ indices,
    dc ++ [{ index_start := start, index_end := stop, texture := texture,
             pipeline := mesh.pipeline, clip := mesh.clip }])

/-- The accumulation loop of update_buffers over the frame's mesh list,
producing the vertex upload, the index upload and the command list. -/
def compileFrame (texmap : TexMap) (default_texture : Nat) (meshes : List Mesh) :
    List YakuiVertex × List Nat × List DrawCommand :=
  meshes.foldl (compileStep texmap default_texture) ([], [], [])

/-- Number of vertices accumulated before mesh k. -/
def vertsBefore (meshes : List Mesh) (k : Nat) : Nat :=
  ((meshes.take k).map (fun m => m.vertices.length)).sum

/-- Number of indices accumulated before mesh k. -/
def idxBefore (meshes : List Mesh) (k : Nat) : Nat :=
  ((meshes.take k).map (fun m => m.indices.length)).sum

/-- Total index count of a frame. -/
def totalIndices (meshes : List Mesh) : Nat :=
  (meshes.map (fun m => m.indices.length)).sum

/-- Total vertex count of a frame. -/
def totalVertices (meshes : List Mesh) : Nat :=
  (meshes.map (fun m => m.vertices.length)).sum

/-- Closed form of the vertex accumulator: concatenation of the
repacked per-mesh vertex lists. -/
def repackedVertices : List Mesh → List YakuiVertex
  | [] => []
  | m :: rest => m.vertices.map repack ++ repackedVertices rest

/-- Closed form of the index accumulator: per-mesh indices rewritten by
the running vertex offset, with u16 truncation as in the source. -/
def rewrittenIndices (voff : Nat) : List Mesh → List Nat
  | [] => []
  | m :: rest =>
      m.indices.map (fun i => (voff % 2 ^ 16 + i) % 2 ^ 16)
        ++ rewrittenIndices (voff + m.vertices.length) rest

/-- Closed form of the command accumulator, tracking the running index
offset. -/
def commandsFrom (texmap : TexMap) (default_texture : Nat) (ioff : Nat) :
    List Mesh → List DrawCommand
  | [] => []
  | m :: rest =>
      { index_start := ioff % 2 ^ 32,
        index_end := (ioff % 2 ^ 32 + m.indices.length % 2 ^ 32) % 2 ^ 32,
        texture := resolveTexture texmap default_texture m.texture,
        pipeline := m.pipeline, clip := m.clip }
        :: commandsFrom texmap default_texture (ioff + m.indices.length) rest

theorem repackedVertices_length (meshes : List Mesh) :
    (repackedVertices meshes).length = totalVertices meshes := by
  induction meshes with
  | nil => rfl
  | cons m rest ih =>
      simp [repackedVertices, totalVertices, ih, List.length_append]

theorem rewrittenIndices_length (voff : Nat) (meshes : List Mesh) :
    (rewrittenIndices voff meshes).length = totalIndices meshes := by
  induction meshes generalizing voff with
  | nil => rfl
  | cons m rest ih =>
      simp [rewrittenIndices, totalIndices, List.length_append, ih]

/-- Master characterization of the update_buffers loop: folding from an
arbitrary accumulator appends the closed-form outputs, with offsets
given by the accumulator lengths. -/
theorem compileFold_spec (texmap : TexMap) (default_texture : Nat) :
    ∀ (meshes : List Mesh) (dv : List YakuiVertex) (di : List Nat)
      (dc : List DrawCommand),
      meshes.foldl (compileStep texmap default_texture) (dv, di, dc) =
        (dv ++ repackedVertices meshes,
         di ++ rewrittenIndices dv.length meshes,
         dc ++ commandsFrom texmap default_texture di.length meshes) := by
  intro meshes
  induction meshes with
  | nil => intro dv di dc; simp [repackedVertices, rewrittenIndices, commandsFrom]
  | cons m rest ih =>
      intro dv di dc
      simp only [List.foldl_cons]
      rw [show compileStep texmap default_texture (dv, di, dc) m =
        (dv ++ m.vertices.map repack,
         di ++ m.indices.map (fun i => (dv.length % 2 ^ 16 + i) % 2 ^ 16),
         dc ++ [{ index_start := di.length % 2 ^ 32,
                  index_end := (di.length % 2 ^ 32 + m.indices.length % 2 ^ 32) % 2 ^ 32,
                  texture := resolveTexture texmap default_texture m.texture,
                  pipeline := m.pipeline, clip := m.clip }]) from rfl]
      rw [ih]
      simp [repackedVertices, rewrittenIndices, commandsFrom,
        List.length_append, List.append_assoc]

/-- compileFrame in closed form. -/
theorem compileFrame_eq (texmap : TexMap) (default_texture : Nat) (meshes : List Mesh) :
    compileFrame texmap default_texture meshes =
      (repackedVertices meshes, rewrittenIndices 0 meshes,
       commandsFrom texmap default_texture 0 meshes) := by
  have h := compileFold_spec texmap default_texture meshes [] [] []
  simpa [compileFrame] using h

theorem idxBefore_zero (meshes : List Mesh) : idxBefore meshes 0 = 0 := rfl

theorem vertsBefore_zero (meshes : List Mesh) : vertsBefore meshes 0 = 0 := rfl

theorem idxBefore_cons_succ (m : Mesh) (rest : List Mesh) (k : Nat) :
    idxBefore (m :: rest) (k + 1) = m.indices.length + idxBefore rest k := by
  simp [idxBefore, List.take_succ_cons]

theorem vertsBefore_cons_succ (m : Mesh) (rest : List Mesh) (k : Nat) :
    vertsBefore (m :: rest) (k + 1) = m.vertices.length + vertsBefore rest k := by
  simp [vertsBefore, List.take_succ_cons]

theorem idxBefore_succ (meshes : List Mesh) (k : Nat) (hk : k < meshes.length) :
    idxBefore meshes (k + 1) = idxBefore meshes k + meshes[k].indices.length := by
  induction meshes generalizing k with
  | nil => simp at hk
  | cons m rest ih =>
      cases k with
      | zero => simp [idxBefore_cons_succ, idxBefore_zero]
      | succ k =>
          have hk' : k < rest.length := by simpa using hk
          simp [idxBefore_cons_succ, ih k hk']
          omega

theorem idxBefore_le_total (meshes : List Mesh) (k : Nat) :
    idxBefore meshes k ≤ totalIndices meshes := by
  induction meshes generalizing k with
  | nil => simp [idxBefore, totalIndices]
  | cons m rest ih =>
      cases k with
      | zero => simp [idxBefore_zero]
      | succ k =>
          have := ih k
          simp [idxBefore_cons_succ, totalIndices] at this ⊢
          omega

theorem idxBefore_length (meshes : List Mesh) :
    idxBefore meshes meshes.length = totalIndices meshes := by
  simp [idxBefore, totalIndices]

/-- Dropping the accumulated prefix of the rewritten index stream lands
exactly at mesh k's rewritten block. -/
theorem rewrittenIndices_drop (meshes : List Mesh) (k voff : Nat)
    (hk : k < meshes.length) :
    (rewrittenIndices voff meshes).drop (idxBefore meshes k) =
      rewrittenIndices (voff + vertsBefore meshes k) (meshes.drop k) := by
  induction meshes generalizing k voff with
  | nil => simp at hk
  | cons m rest ih =>
      cases k with
      | zero => simp [idxBefore_zero, vertsBefore_zero]
      | succ k =>
          have hk' : k < rest.length := by simpa using hk
          rw [idxBefore_cons_succ, vertsBefore_cons_succ]
          show (m.indices.map (fun i => (voff % 2 ^ 16 + i) % 2 ^ 16)
              ++ rewrittenIndices (voff + m.vertices.length) rest).drop
                (m.indices.length + idxBefore rest k) = _
          rw [show m.indices.length =
            (m.indices.map (fun i => (voff % 2 ^ 16 + i) % 2 ^ 16)).length by simp]
          rw [List.drop_append]
          rw [ih k (voff + m.vertices.length) hk']
          simp [Nat.add_assoc]

/-- Dropping the accumulated vertex prefix lands at mesh k's repacked
vertex block. -/
theorem repackedVertices_drop (meshes : List Mesh) (k : Nat)
    (hk : k < meshes.length) :
    (repackedVertices meshes).drop (vertsBefore meshes k) =
      repackedVertices (meshes.drop k) := by
  induction meshes generalizing k with
  | nil => simp at hk
  | cons m rest ih =>
      cases k with
      | zero => simp [vertsBefore_zero]
      | succ k =>
          have hk' : k < rest.length := by simpa using hk
          rw [vertsBefore_cons_succ]
          show (m.vertices.map repack ++ repackedVertices rest).drop
            (m.vertices.length + vertsBefore rest k) = _
          rw [show m.vertices.length = (m.vertices.map repack).length by simp]
          rw [List.drop_append]
          exact ih k hk'

theorem commandsFrom_length (texmap : TexMap) (default_texture : Nat)
    (ioff : Nat) (meshes : List Mesh) :
    (commandsFrom texmap default_texture ioff meshes).length = meshes.length := by
  induction meshes generalizing ioff with
  | nil => rfl
  | cons m rest ih => simp [commandsFrom, ih]

/-- The k-th compiled command, in closed form (with u32 truncation). -/
theorem commandsFrom_getElem? (texmap : TexMap) (default_texture : Nat)
    (meshes : List Mesh) (k ioff : Nat) (hk : k < meshes.length) :
    (commandsFrom texmap default_texture ioff meshes)[k]? =
      some { index_start := (ioff + idxBefore meshes k) % 2 ^ 32,
             index_end := ((ioff + idxBefore meshes k) % 2 ^ 32
               + meshes[k].indices.length % 2 ^ 32) % 2 ^ 32,
             texture := resolveTexture texmap default_texture meshes[k].texture,
             pipeline := meshes[k].pipeline,
             clip := meshes[k].clip } := by
  induction meshes generalizing k ioff with
  | nil => simp at hk
  | cons m rest ih =>
      cases k with
      | zero => simp [commandsFrom, idxBefore_zero]
      | succ k =>
          have hk' : k < rest.length := by simpa using hk
          rw [idxBefore_cons_succ]
          simp only [commandsFrom, List.getElem?_cons_succ, List.getElem_cons_succ]
          rw [ih k (ioff + m.indices.length) hk']
          simp [Nat.add_assoc]

/-- The k-th compiled command without u32 truncation, available as soon
as the frame's total index count fits the 32-bit range. -/
theorem commands_tiled (texmap : TexMap) (default_texture : Nat)
    (meshes : List Mesh) (hfit : totalIndices meshes < 2 ^ 32)
    (k : Nat) (m : Mesh) (hm : meshes[k]? = some m) :
    ((compileFrame texmap default_texture meshes).2.2)[k]? =
      some { index_start := idxBefore meshes k,
             index_end := idxBefore meshes k + m.indices.length,
             texture := resolveTexture texmap default_texture m.texture,
             pipeline := m.pipeline, clip := m.clip } := by
  rcases List.getElem?_eq_some.mp hm with ⟨hk, hkm⟩
  have hb : idxBefore meshes k < 2 ^ 32 :=
    lt_of_le_of_lt (idxBefore_le_total meshes k) hfit
  have hsum : idxBefore meshes k + meshes[k].indices.length < 2 ^ 32 := by
    rw [← idxBefore_succ meshes k hk]
    exact lt_of_le_of_lt (idxBefore_le_total meshes (k + 1)) hfit
  have hlen : meshes[k].indices.length < 2 ^ 32 := by omega
  rw [compileFrame_eq]
  show (commandsFrom texmap default_texture 0 meshes)[k]? = _
  rw [commandsFrom_getElem? texmap default_texture meshes k 0 hk]
  rw [hkm] at hsum hlen ⊢
  rw [Nat.zero_add, Nat.mod_eq_of_lt hb, Nat.mod_eq_of_lt hlen, Nat.mod_eq_of_lt hsum]

/-- C1: in the draw list compiler, every index of mesh k written into
the shared index buffer equals base + original_local_index (base being
the accumulated vertex count), and fetching the global vertex at that
index yields the repacked local vertex — provided the cumulative vertex
count stays inside the 16-bit index range. -/
theorem C1_index_rewrite (texmap : TexMap) (default_texture : Nat)
    (meshes : List Mesh) (k : Nat) (m : Mesh) (hm : meshes[k]? = some m)
    (hfit : ∀ i ∈ m.indices, vertsBefore meshes k + i < 2 ^ 16)
    (hrange : ∀ i ∈ m.indices, i < m.vertices.length) :
    ((((compileFrame texmap default_texture meshes).2.1).drop
        (idxBefore meshes k)).take m.indices.length
      = m.indices.map (fun i => vertsBefore meshes k + i))
    ∧ ∀ i ∈ m.indices,
        ((compileFrame texmap default_texture meshes).1)[vertsBefore meshes k + i]?
          = (m.vertices[i]?).map repack := by
  rcases List.getElem?_eq_some.mp hm with ⟨hk, hkm⟩
  rw [compileFrame_eq]
  have hdropm : meshes.drop k = m :: meshes.drop (k + 1) := by
    rw [List.drop_eq_getElem_cons hk, hkm]
  constructor
  · rw [rewrittenIndices_drop meshes k 0 hk, hdropm]
    show ((m.indices.map fun i => ((0 + vertsBefore meshes k) % 2 ^ 16 + i) % 2 ^ 16)
        ++ rewrittenIndices (0 + vertsBefore meshes k + m.vertices.length)
            (meshes.drop (k + 1))).take m.indices.length = _
    rw [show m.indices.length =
      (m.indices.map fun i => ((0 + vertsBefore meshes k) % 2 ^ 16 + i) % 2 ^ 16).length
        by simp]
    rw [List.take_left]
    apply List.map_eq_map_iff.mpr
    intro i hi
    have h1 : vertsBefore meshes k + i < 2 ^ 16 := hfit i hi
    have h2 : vertsBefore meshes k < 2 ^ 16 := by omega
    rw [Nat.zero_add, Nat.mod_eq_of_lt h2, Nat.mod_eq_of_lt h1]
  · intro i hi
    rw [← List.getElem?_drop]
    rw [repackedVertices_drop meshes k hk, hdropm]
    show (m.vertices.map repack ++ repackedVertices (meshes.drop (k + 1)))[i]? = _
    rw [List.getElem?_append_left (by simpa using hrange i hi)]
    exact List.getElem?_map repack m.vertices i

/-- C1 demonstration inputs. -/
def demoV1 : YVertex := { position := (1, 2), texcoord := (3, 4), color := (5, 6, 7, 8) }

def demoV2 : YVertex := { position := (9, 10), texcoord := (11, 12), color := (13, 14, 15, 16) }

def demoV3 : YVertex := { position := (17, 18), texcoord := (19, 20), color := (21, 22, 23, 24) }

def demoMesh1 : Mesh :=
  { vertices := [demoV1, demoV2], indices := [0, 1, 0], texture := none,
    pipeline := YPipeline.Main, clip := none }

def demoMesh2 : Mesh :=
  { vertices := [demoV3], indices := [0], texture := some 5,
    pipeline := YPipeline.Text, clip := some { posx := 0, posy := 0, sizex := 10, sizey := 10 } }

def demoMeshes : List Mesh := [demoMesh1, demoMesh2]

def demoTexMap : TexMap := [(5, 11)]

theorem C1_index_rewrite_witness :
    (demoMeshes[1]? = some demoMesh2
      ∧ (∀ i ∈ demoMesh2.indices, vertsBefore demoMeshes 1 + i < 2 ^ 16)
      ∧ (∀ i ∈ demoMesh2.indices, i < demoMesh2.vertices.length))
    ∧ (((((compileFrame demoTexMap 7 demoMeshes).2.1).drop
          (idxBefore demoMeshes 1)).take demoMesh2.indices.length
        = demoMesh2.indices.map (fun i => vertsBefore demoMeshes 1 + i))
      ∧ ∀ i ∈ demoMesh2.indices,
          ((compileFrame demoTexMap 7 demoMeshes).1)[vertsBefore demoMeshes 1 + i]?
            = (demoMesh2.vertices[i]?).map repack) :=
  ⟨⟨by decide, by decide, by decide⟩,
    C1_index_rewrite demoTexMap 7 demoMeshes 1 demoMesh2 (by decide) (by decide) (by decide)⟩

/-- C2: the compiled command list has exactly one entry per input mesh,
in the same order, carrying that mesh's pipeline, clip and resolved
texture; no command is dropped at compile time. -/
theorem C2_one_command_per_mesh (texmap : TexMap) (default_texture : Nat)
    (meshes : List Mesh) :
    ((compileFrame texmap default_texture meshes).2.2).length = meshes.length
    ∧ ∀ (k : Nat) (m : Mesh), meshes[k]? = some m →
        ∃ c : DrawCommand, ((compileFrame texmap default_texture meshes).2.2)[k]? = some c
          ∧ c.pipeline = m.pipeline ∧ c.clip = m.clip
          ∧ c.texture = resolveTexture texmap default_texture m.texture := by
  rw [compileFrame_eq]
  refine ⟨commandsFrom_length texmap default_texture 0 meshes, ?_⟩
  intro k m hm
  rcases List.getElem?_eq_some.mp hm with ⟨hk, hkm⟩
  refine ⟨_, commandsFrom_getElem? texmap default_texture meshes k 0 hk, ?_, ?_, ?_⟩
  all_goals simp [hkm]

theorem C2_one_command_per_mesh_witness :
    demoMeshes[1]? = some demoMesh2
    ∧ (((compileFrame demoTexMap 7 demoMeshes).2.2).length = demoMeshes.length
      ∧ ∀ (k : Nat) (m : Mesh), demoMeshes[k]? = some m →
          ∃ c : DrawCommand, ((compileFrame demoTexMap 7 demoMeshes).2.2)[k]? = some c
            ∧ c.pipeline = m.pipeline ∧ c.clip = m.clip
            ∧ c.texture = resolveTexture demoTexMap 7 m.texture) :=
  ⟨by decide, C2_one_command_per_mesh demoTexMap 7 demoMeshes⟩

/-- C10: the compiled commands' index ranges tile the index buffer
contiguously and in order: the first range starts at 0, consecutive
ranges abut, each range's length is its mesh's index count, and the
last range ends at the total number of uploaded indices (all under the
32-bit format precondition on the frame's total index count). -/
theorem C10_index_ranges_tile (texmap : TexMap) (default_texture : Nat)
    (meshes : List Mesh) (hfit : totalIndices meshes < 2 ^ 32) :
    (∀ c, ((compileFrame texmap default_texture meshes).2.2)[0]? = some c →
        c.index_start = 0)
    ∧ (∀ (k : Nat) (c c' : DrawCommand),
        ((compileFrame texmap default_texture meshes).2.2)[k]? = some c →
        ((compileFrame texmap default_texture meshes).2.2)[k + 1]? = some c' →
        c'.index_start = c.index_end)
    ∧ (∀ (k : Nat) (m : Mesh) (c : DrawCommand), meshes[k]? = some m →
        ((compileFrame texmap default_texture meshes).2.2)[k]? = some c →
        c.index_end = c.index_start + m.indices.length)
    ∧ (∀ c, ((compileFrame texmap default_texture meshes).2.2)[
          ((compileFrame texmap default_texture meshes).2.2).length - 1]? = some c →
        c.index_end = ((compileFrame texmap default_texture meshes).2.1).length) := by
  have hlen : ((compileFrame texmap default_texture meshes).2.2).length = meshes.length := by
    rw [compileFrame_eq]; exact commandsFrom_length texmap default_texture 0 meshes
  have hmesh : ∀ (k : Nat) (c : DrawCommand),
      ((compileFrame texmap default_texture meshes).2.2)[k]? = some c →
      ∃ m, meshes[k]? = some m ∧ c =
        { index_start := idxBefore meshes k,
          index_end := idxBefore meshes k + m.indices.length,
          texture := resolveTexture texmap default_texture m.texture,
          pipeline := m.pipeline, clip := m.clip } := by
    intro k c hc
    have hk : k < meshes.length := by
      rcases List.getElem?_eq_some.mp hc with ⟨hk, _⟩
      rwa [hlen] at hk
    refine ⟨meshes[k], List.getElem?_eq_getElem hk, ?_⟩
    have := commands_tiled texmap default_texture meshes hfit k meshes[k]
      (List.getElem?_eq_getElem hk)
    rw [this] at hc
    exact (Option.some.injEq _ _).mp hc.symm
  refine ⟨?_, ?_, ?_, ?_⟩
  · intro c hc
    rcases hmesh 0 c hc with ⟨m, _, rfl⟩
    rfl
  · intro k c c' hc hc'
    rcases hmesh k c hc with ⟨m, hm, rfl⟩
    rcases hmesh (k + 1) c' hc' with ⟨m', hm', rfl⟩
    rcases List.getElem?_eq_some.mp hm with ⟨hk, hkm⟩
    show idxBefore meshes (k + 1) = idxBefore meshes k + m.indices.length
    rw [idxBefore_succ meshes k hk, hkm]
  · intro k m c hm hc
    rcases hmesh k c hc with ⟨m', hm', rfl⟩
    rw [hm] at hm'
    cases hm'
    rfl
  · intro c hc
    rw [hlen] at hc
    rcases hmesh (meshes.length - 1) c hc with ⟨m, hm, rfl⟩
    rcases List.getElem?_eq_some.mp hm with ⟨hk, hkm⟩
    show idxBefore meshes (meshes.length - 1) + m.indices.length =
      ((compileFrame texmap default_texture meshes).2.1).length
    rw [compileFrame_eq]
    show _ = (rewrittenIndices 0 meshes).length
    rw [rewrittenIndices_length, ← hkm,
      ← idxBefore_succ meshes (meshes.length - 1) hk,
      Nat.sub_add_cancel (by omega), idxBefore_length]

theorem C10_index_ranges_tile_witness :
    totalIndices demoMeshes < 2 ^ 32
    ∧ ((∀ c, ((compileFrame demoTexMap 7 demoMeshes).2.2)[0]? = some c →
          c.index_start = 0)
      ∧ (∀ (k : Nat) (c c' : DrawCommand), ((compileFrame demoTexMap 7 demoMeshes).2.2)[k]? = some c →
          ((compileFrame demoTexMap 7 demoMeshes).2.2)[k + 1]? = some c' →
          c'.index_start = c.index_end)
      ∧ (∀ (k : Nat) (m : Mesh) (c : DrawCommand), demoMeshes[k]? = some m →
          ((compileFrame demoTexMap 7 demoMeshes).2.2)[k]? = some c →
          c.index_end = c.index_start + m.indices.length)
      ∧ (∀ c, ((compileFrame demoTexMap 7 demoMeshes).2.2)[
            ((compileFrame demoTexMap 7 demoMeshes).2.2).length - 1]? = some c →
          c.index_end = ((compileFrame demoTexMap 7 demoMeshes).2.1).length)) :=
  ⟨by decide, C10_index_ranges_tile demoTexMap 7 demoMeshes (by decide)⟩

/-! ## Texture cache (update_textures / drop_textures) -/

/-- yakui_core::paint::TextureFormat: the two formats the adapter
supports, plus any other variant. -/
inductive YTexFormat where
  | Rgba8Srgb
  | R8
  | OtherFormat
deriving DecidableEq

/-- miniquad::TextureFormat values produced by the adapter. -/
inductive MqTexFormat where
  | RGBA8
  | Alpha
deriving DecidableEq

/-- resolve_texture_format (lib.rs): panics on any unexpected format,
modelled as none. -/
def resolve_texture_format : YTexFormat → Option MqTexFormat
  | YTexFormat.Rgba8Srgb => some MqTexFormat.RGBA8
  | YTexFormat.R8 => some MqTexFormat.Alpha
  | YTexFormat.OtherFormat => none

/-- A yakui texture in the registry: pixel format plus opaque data. -/
structure YTexture where
  format : YTexFormat
  data : Nat
deriving DecidableEq

/-- The rendering backend's texture state: a fresh-id counter plus
audit lists of every created, destroyed and updated backend texture. -/
structure Ctx where
  next_texture : Nat
  created : List Nat
  destroyed : List Nat
  updated : List Nat
deriving DecidableEq

/-- ctx.delete_texture. -/
def delete_texture (ctx : Ctx) (t : Nat) : Ctx :=
  { ctx with destroyed := ctx.destroyed ++ [t] }

/-- ctx.texture_update (in-place pixel upload; no allocation). -/
def texture_update (ctx : Ctx) (t : Nat) : Ctx :=
  { ctx with updated := ctx.updated ++ [t] }

/-- make_texture (lib.rs): resolves the format (fatal on an
unsupported one) and creates a fresh backend texture. -/
def make_texture (ctx : Ctx) (tex : YTexture) : Option (Nat × Ctx) :=
  (resolve_texture_format tex.format).map (fun _ =>
    (ctx.next_texture,
      { ctx with next_texture := ctx.next_texture + 1,
                 created := ctx.created ++ [ctx.next_texture] }))

/-- The UI engine's texture registry (paint.textures() as a list,
paint.texture(id) as lookup). -/
abbrev Registry := List (Nat × YTexture)

def registryGet : Registry → Nat → Option YTexture
  | [], _ => none
  | (k, v) :: rest, id => if k = id then some v else registryGet rest id

/-- yakui_core::paint::TextureChange. -/
inductive TextureChange where
  | Added
  | Removed
  | Modified
deriving DecidableEq

/-- The defensive first loop of update_textures:
`self.textures.entry(id).or_insert_with(|| make_texture(ctx, texture))`. -/
def defensiveStep (st : Ctx × TexMap) (entry : Nat × YTexture) :
    Option (Ctx × TexMap) :=
  match texGet st.2 entry.1 with
  | some _ => some st
  | none => (make_texture st.1 entry.2).map (fun p => (p.2, texPut st.2 entry.1 p.1))

/-- One edit of the second loop of update_textures; the source unwraps
paint.texture(id) (modelled as none on a missing registry entry). -/
def applyEdit (registry : Registry) (st : Ctx × TexMap)
    (edit : Nat × TextureChange) : Option (Ctx × TexMap) :=
  match edit.2 with
  | TextureChange.Added =>
      (registryGet registry edit.1).bind (fun tex =>
        (make_texture st.1 tex).map (fun p => (p.2, texPut st.2 edit.1 p.1)))
  | TextureChange.Removed =>
      match texGet st.2 edit.1 with
      | some t => some (delete_texture st.1 t, texDel st.2 edit.1)
      | none => some st
  | TextureChange.Modified =>
      match texGet st.2 edit.1 with
      | some t => (registryGet registry edit.1).map
          (fun _ => (texture_update st.1 t, st.2))
      | none => some st

/-- update_textures (lib.rs): defensive pass over the registry, then
the frame's edit log. -/
def update_textures (registry : Registry) (edits : List (Nat × TextureChange))
    (ctx : Ctx) (cache : TexMap) : Option (Ctx × TexMap) :=
  (registry.foldlM defensiveStep (ctx, cache)).bind
    (fun st => edits.foldlM (applyEdit registry) st)

/-- drop_textures (lib.rs): destroy every currently cached texture. -/
def drop_textures (ctx : Ctx) (cache : TexMap) : Ctx :=
  cache.foldl (fun c p => delete_texture c p.2) ctx

/-! ### Association-list facts mirroring HashMap behavior -/

theorem texGet_filter_ne (m : TexMap) (k id : Nat) (h : k ≠ id) :
    texGet (m.filter (fun p => decide (p.1 ≠ k))) id = texGet m id := by
  induction m with
  | nil => rfl
  | cons p rest ih =>
      by_cases hp : p.1 = k
      · rw [List.filter_cons_of_neg (by simp [hp])]
        rw [ih]
        have hpid : p.1 ≠ id := by rw [hp]; exact h
        match p with
        | (a, b) => simp [texGet] at hpid ⊢; simp [hpid]
      · rw [List.filter_cons_of_pos (by simp [hp])]
        match p with
        | (a, b) =>
            by_cases ha : a = id
            · simp [texGet, ha]
            · simp only [texGet, if_neg ha]
              simpa using ih

theorem texGet_filter_self (m : TexMap) (k : Nat) :
    texGet (m.filter (fun p => decide (p.1 ≠ k))) k = none := by
  induction m with
  | nil => rfl
  | cons p rest ih =>
      by_cases hp : p.1 = k
      · rw [List.filter_cons_of_neg (by simp [hp])]; exact ih
      · rw [List.filter_cons_of_pos (by simp [hp])]
        match p with
        | (a, b) =>
            simp only [texGet]
            simp at hp
            simp only [if_neg hp]
            simpa using ih

theorem texGet_texPut_self (m : TexMap) (k v : Nat) :
    texGet (texPut m k v) k = some v := by
  simp [texPut, texGet]

theorem texGet_texPut_ne (m : TexMap) (k v id : Nat) (h : k ≠ id) :
    texGet (texPut m k v) id = texGet m id := by
  simp only [texPut, texGet, if_neg h]
  exact texGet_filter_ne m k id h

theorem texGet_texDel_self (m : TexMap) (k : Nat) :
    texGet (texDel m k) k = none :=
  texGet_filter_self m k

theorem texGet_texDel_ne (m : TexMap) (k id : Nat) (h : k ≠ id) :
    texGet (texDel m k) id = texGet m id :=
  texGet_filter_ne m k id h

/-! ### Behavior of the defensive pass -/

theorem defensive_preserves (registry : Registry) :
    ∀ (st st' : Ctx × TexMap) (id t : Nat),
      List.foldlM defensiveStep st registry = some st' →
      texGet st.2 id = some t → texGet st'.2 id = some t := by
  induction registry with
  | nil =>
      intro st st' id t h hg
      simp only [List.foldlM_nil] at h
      cases h
      exact hg
  | cons entry rest ih =>
      intro st st' id t h hg
      rw [List.foldlM_cons] at h
      rcases Option.bind_eq_some.mp h with ⟨st1, h1, h2⟩
      apply ih st1 st' id t h2
      unfold defensiveStep at h1
      cases hget : texGet st.2 entry.1 with
      | some u =>
          rw [hget] at h1
          cases h1
          exact hg
      | none =>
          rw [hget] at h1
          cases hmk : make_texture st.1 entry.2 with
          | none => rw [hmk] at h1; cases h1
          | some p =>
              rw [hmk] at h1
              cases h1
              have hne : entry.1 ≠ id := by
                intro he
                rw [he, hg] at hget
                cases hget
              rw [texGet_texPut_ne _ _ _ _ hne]
              exact hg

theorem defensive_preserves_ctx_destroyed (registry : Registry) :
    ∀ (st st' : Ctx × TexMap) (x : Nat),
      List.foldlM defensiveStep st registry = some st' →
      x ∈ st.1.destroyed → x ∈ st'.1.destroyed := by
  induction registry with
  | nil =>
      intro st st' x h hx
      simp only [List.foldlM_nil] at h
      cases h
      exact hx
  | cons entry rest ih =>
      intro st st' x h hx
      rw [List.foldlM_cons] at h
      rcases Option.bind_eq_some.mp h with ⟨st1, h1, h2⟩
      apply ih st1 st' x h2
      unfold defensiveStep at h1
      cases hget : texGet st.2 entry.1 with
      | some u => rw [hget] at h1; cases h1; exact hx
      | none =>
          rw [hget] at h1
          cases hmk : make_texture st.1 entry.2 with
          | none => rw [hmk] at h1; cases h1
          | some p =>
              rw [hmk] at h1
              cases h1
              have : p.2.destroyed = st.1.destroyed := by
                rcases Option.map_eq_some'.mp hmk with ⟨f, hf, hp⟩
                rw [← hp]
              rw [this]
              exact hx

theorem defensive_establishes (registry : Registry) :
    ∀ (st st' : Ctx × TexMap) (id : Nat),
      List.foldlM defensiveStep st registry = some st' →
      (registryGet registry id).isSome →
      (texGet st'.2 id).isSome := by
  induction registry with
  | nil =>
      intro st st' id h hr
      cases hr
  | cons entry rest ih =>
      intro st st' id h hr
      rw [List.foldlM_cons] at h
      rcases Option.bind_eq_some.mp h with ⟨st1, h1, h2⟩
      match entry, hr with
      | (k, tex), hr =>
          by_cases hk : k = id
          · have hsome : (texGet st1.2 id).isSome := by
              unfold defensiveStep at h1
              cases hget : texGet st.2 k with
              | some u =>
                  rw [hget] at h1
                  cases h1
                  subst hk
                  rw [hget]
                  rfl
              | none =>
                  rw [hget] at h1
                  cases hmk : make_texture st.1 tex with
                  | none => rw [hmk] at h1; cases h1
                  | some p =>
                      rw [hmk] at h1
                      cases h1
                      show (texGet (texPut st.2 k p.1) id).isSome
                      rw [hk, texGet_texPut_self]
                      rfl
            rcases Option.isSome_iff_exists.mp hsome with ⟨t, ht⟩
            rw [defensive_preserves rest st1 st' id t h2 ht]
            rfl
          · apply ih st1 st' id h2
            unfold registryGet at hr
            rw [if_neg hk] at hr
            exact hr

theorem defensive_noop (registry : Registry) :
    ∀ (st : Ctx × TexMap),
      (∀ entry ∈ registry, (texGet st.2 entry.1).isSome) →
      List.foldlM defensiveStep st registry = some st := by
  induction registry with
  | nil => intro st _; rfl
  | cons entry rest ih =>
      intro st hall
      rw [List.foldlM_cons]
      have h1 : defensiveStep st entry = some st := by
        unfold defensiveStep
        rcases Option.isSome_iff_exists.mp (hall entry (by simp)) with ⟨t, ht⟩
        rw [ht]
      rw [h1]
      show List.foldlM defensiveStep st rest = some st
      exact ih st (fun e he => hall e (by simp [he]))

/-! ### Behavior of the edit loop -/

theorem applyEdit_ne_get (registry : Registry) (st st' : Ctx × TexMap)
    (edit : Nat × TextureChange) (id : Nat) (hne : edit.1 ≠ id)
    (h : applyEdit registry st edit = some st') :
    texGet st'.2 id = texGet st.2 id := by
  unfold applyEdit at h
  match hedit : edit.2 with
  | TextureChange.Added =>
      rw [hedit] at h
      rcases Option.bind_eq_some.mp h with ⟨tex, htex, h⟩
      rcases Option.map_eq_some'.mp h with ⟨p, hp, h⟩
      rw [← h]
      exact texGet_texPut_ne _ _ _ _ hne
  | TextureChange.Removed =>
      rw [hedit] at h
      cases hget : texGet st.2 edit.1 with
      | some t =>
          rw [hget] at h
          cases h
          exact texGet_texDel_ne _ _ _ hne
      | none => rw [hget] at h; cases h; rfl
  | TextureChange.Modified =>
      rw [hedit] at h
      cases hget : texGet st.2 edit.1 with
      | some t =>
          rw [hget] at h
          rcases Option.map_eq_some'.mp h with ⟨tex, htex, h⟩
          rw [← h]
      | none => rw [hget] at h; cases h; rfl

theorem applyEdit_destroyed_mono (registry : Registry) (st st' : Ctx × TexMap)
    (edit : Nat × TextureChange) (x : Nat)
    (h : applyEdit registry st edit = some st') :
    x ∈ st.1.destroyed → x ∈ st'.1.destroyed := by
  intro hx
  unfold applyEdit at h
  match hedit : edit.2 with
  | TextureChange.Added =>
      rw [hedit] at h
      rcases Option.bind_eq_some.mp h with ⟨tex, htex, h⟩
      rcases Option.map_eq_some'.mp h with ⟨p, hp, h⟩
      rw [← h]
      rcases Option.map_eq_some'.mp hp with ⟨f, hf, hp'⟩
      show x ∈ p.2.destroyed
      rw [← hp']
      exact hx
  | TextureChange.Removed =>
      rw [hedit] at h
      cases hget : texGet st.2 edit.1 with
      | some t =>
          rw [hget] at h
          cases h
          show x ∈ st.1.destroyed ++ [t]
          exact List.mem_append_left _ hx
      | none => rw [hget] at h; cases h; exact hx
  | TextureChange.Modified =>
      rw [hedit] at h
      cases hget : texGet st.2 edit.1 with
      | some t =>
          rw [hget] at h
          rcases Option.map_eq_some'.mp h with ⟨tex, htex, h⟩
          rw [← h]
          exact hx
      | none => rw [hget] at h; cases h; exact hx

theorem edits_get_of_not_mem (registry : Registry) :
    ∀ (edits : List (Nat × TextureChange)) (st st' : Ctx × TexMap) (id : Nat),
      (∀ e ∈ edits, e.1 ≠ id) →
      List.foldlM (applyEdit registry) st edits = some st' →
      texGet st'.2 id = texGet st.2 id ∧
        (∀ x ∈ st.1.destroyed, x ∈ st'.1.destroyed) := by
  intro edits
  induction edits with
  | nil =>
      intro st st' id _ h
      simp only [List.foldlM_nil] at h
      cases h
      exact ⟨rfl, fun x hx => hx⟩
  | cons e rest ih =>
      intro st st' id hne h
      rw [List.foldlM_cons] at h
      rcases Option.bind_eq_some.mp h with ⟨st1, h1, h2⟩
      have hrest := ih st1 st' id (fun e' he' => hne e' (by simp [he'])) h2
      refine ⟨?_, ?_⟩
      · rw [hrest.1]
        exact applyEdit_ne_get registry st st1 e id (hne e (by simp)) h1
      · intro x hx
        exact hrest.2 x (applyEdit_destroyed_mono registry st st1 e x h1 hx)

theorem nodup_cons_split {e : Nat × TextureChange}
    {rest : List (Nat × TextureChange)}
    (h : ((e :: rest).map Prod.fst).Nodup) :
    e.1 ∉ rest.map Prod.fst ∧ (rest.map Prod.fst).Nodup := by
  rw [List.map_cons] at h
  exact List.nodup_cons.mp h

theorem nodup_keys_tail_ne {e : Nat × TextureChange}
    {rest : List (Nat × TextureChange)} {id : Nat} {c : TextureChange}
    (hnodup : ((e :: rest).map Prod.fst).Nodup) (hmem : (id, c) ∈ rest) :
    e.1 ≠ id := by
  intro he
  rcases nodup_cons_split hnodup with ⟨hnotin, _⟩
  exact hnotin (by
    rw [he]
    exact List.mem_map.mpr ⟨(id, c), hmem, rfl⟩)

theorem keys_of_mem_ne {rest : List (Nat × TextureChange)} {id : Nat}
    {c : TextureChange} (hnodup : (rest.map Prod.fst).Nodup)
    (hmem : (id, c) ∈ rest) :
    ∀ e ∈ rest, (id, c) = e ∨ e.1 ≠ id := by
  induction rest with
  | nil => intro e he; cases he
  | cons a rest ih =>
      intro e he
      rcases nodup_cons_split hnodup with ⟨hnotin, htail⟩
      cases List.mem_cons.mp he with
      | inl hea =>
          cases List.mem_cons.mp hmem with
          | inl h1 => left; rw [hea, h1]
          | inr h1 =>
              right
              rw [hea]
              intro hx
              exact hnotin (by
                rw [hx]
                exact List.mem_map.mpr ⟨(id, c), h1, rfl⟩)
      | inr hea =>
          cases List.mem_cons.mp hmem with
          | inl h1 =>
              cases h1
              right
              intro hx
              exact hnotin (by
                rw [← hx]
                exact List.mem_map.mpr ⟨e, hea, rfl⟩)
          | inr h1 => exact ih htail h1 e hea

theorem edits_added_some (registry : Registry) :
    ∀ (edits : List (Nat × TextureChange)) (st st' : Ctx × TexMap) (id : Nat),
      (id, TextureChange.Added) ∈ edits →
      (edits.map Prod.fst).Nodup →
      List.foldlM (applyEdit registry) st edits = some st' →
      (texGet st'.2 id).isSome := by
  intro edits
  induction edits with
  | nil => intro st st' id hmem; cases hmem
  | cons e rest ih =>
      intro st st' id hmem hnodup h
      rw [List.foldlM_cons] at h
      rcases Option.bind_eq_some.mp h with ⟨st1, h1, h2⟩
      cases List.mem_cons.mp hmem with
      | inl he =>
          have h1' := h1
          rw [← he] at h1'
          unfold applyEdit at h1'
          rcases Option.bind_eq_some.mp h1' with ⟨tex, htex, hmk⟩
          rcases Option.map_eq_some'.mp hmk with ⟨p, hp, hst1⟩
          have hsome : texGet st1.2 id = some p.1 := by
            rw [← hst1]
            exact texGet_texPut_self _ _ _
          have hrest : ∀ e' ∈ rest, e'.1 ≠ id := by
            intro e' he'
            rcases nodup_cons_split hnodup with ⟨hnotin, _⟩
            intro hx
            rw [← he] at hnotin
            exact hnotin (by
              rw [← hx]
              exact List.mem_map.mpr ⟨e', he', rfl⟩)
          rw [(edits_get_of_not_mem registry rest st1 st' id hrest h2).1, hsome]
          rfl
      | inr he =>
          exact ih st1 st' id he
            (nodup_cons_split hnodup).2 h2

theorem edits_modified_some (registry : Registry) :
    ∀ (edits : List (Nat × TextureChange)) (st st' : Ctx × TexMap) (id : Nat),
      (id, TextureChange.Modified) ∈ edits →
      (edits.map Prod.fst).Nodup →
      (texGet st.2 id).isSome →
      List.foldlM (applyEdit registry) st edits = some st' →
      (texGet st'.2 id).isSome := by
  intro edits
  induction edits with
  | nil => intro st st' id hmem; cases hmem
  | cons e rest ih =>
      intro st st' id hmem hnodup hsome h
      rw [List.foldlM_cons] at h
      rcases Option.bind_eq_some.mp h with ⟨st1, h1, h2⟩
      cases List.mem_cons.mp hmem with
      | inl he =>
          have h1' := h1
          rw [← he] at h1'
          unfold applyEdit at h1'
          rcases Option.isSome_iff_exists.mp hsome with ⟨t, ht⟩
          rw [ht] at h1'
          rcases Option.map_eq_some'.mp h1' with ⟨tex, htex, hst1⟩
          have hcache : st1.2 = st.2 := by rw [← hst1]
          have hrest : ∀ e' ∈ rest, e'.1 ≠ id := by
            intro e' he'
            rcases nodup_cons_split hnodup with ⟨hnotin, _⟩
            intro hx
            rw [← he] at hnotin
            exact hnotin (by
              rw [← hx]
              exact List.mem_map.mpr ⟨e', he', rfl⟩)
          rw [(edits_get_of_not_mem registry rest st1 st' id hrest h2).1, hcache, ht]
          rfl
      | inr he =>
          have hne : e.1 ≠ id := nodup_keys_tail_ne hnodup he
          have hsome1 : (texGet st1.2 id).isSome := by
            rw [applyEdit_ne_get registry st st1 e id hne h1]
            exact hsome
          exact ih st1 st' id he
            (nodup_cons_split hnodup).2 hsome1 h2

theorem edits_removed (registry : Registry) :
    ∀ (edits : List (Nat × TextureChange)) (st st' : Ctx × TexMap) (id : Nat),
      (id, TextureChange.Removed) ∈ edits →
      (edits.map Prod.fst).Nodup →
      List.foldlM (applyEdit registry) st edits = some st' →
      texGet st'.2 id = none ∧
        (∀ t, texGet st.2 id = some t → t ∈ st'.1.destroyed) := by
  intro edits
  induction edits with
  | nil => intro st st' id hmem; cases hmem
  | cons e rest ih =>
      intro st st' id hmem hnodup h
      rw [List.foldlM_cons] at h
      rcases Option.bind_eq_some.mp h with ⟨st1, h1, h2⟩
      cases List.mem_cons.mp hmem with
      | inl he =>
          have h1' := h1
          rw [← he] at h1'
          unfold applyEdit at h1'
          have hrest : ∀ e' ∈ rest, e'.1 ≠ id := by
            intro e' he'
            rcases nodup_cons_split hnodup with ⟨hnotin, _⟩
            intro hx
            rw [← he] at hnotin
            exact hnotin (by
              rw [← hx]
              exact List.mem_map.mpr ⟨e', he', rfl⟩)
          have hpres := edits_get_of_not_mem registry rest st1 st' id hrest h2
          cases hget : texGet st.2 id with
          | some t =>
              rw [hget] at h1'
              cases h1'
              constructor
              · rw [hpres.1]
                exact texGet_texDel_self _ _
              · intro t' ht'
                cases ht'
                apply hpres.2
                show t ∈ st.1.destroyed ++ [t]
                simp
          | none =>
              rw [hget] at h1'
              cases h1'
              constructor
              · rw [hpres.1]
                exact hget
              · intro t' ht'
                cases ht'
      | inr he =>
          have hne : e.1 ≠ id := nodup_keys_tail_ne hnodup he
          have htail := ih st1 st' id he
            (nodup_cons_split hnodup).2 h2
          refine ⟨htail.1, ?_⟩
          intro t ht
          apply htail.2
          rw [applyEdit_ne_get registry st st1 e id hne h1]
          exact ht

/-- C6: after a per-frame diff (at most one edit per texture id, as the
UI engine's edit log is keyed by id) containing Added(id), or
Modified(id) with id live in the registry, a cache lookup for id
succeeds; after Removed(id) the lookup fails and the backend texture
previously mapped to id is destroyed within the same reconciliation. -/
theorem C6_texture_cache_convergence (registry : Registry)
    (edits : List (Nat × TextureChange)) (ctx : Ctx) (cache : TexMap)
    (id : Nat) (ctx' : Ctx) (cache' : TexMap)
    (hkeys : (edits.map Prod.fst).Nodup)
    (h : update_textures registry edits ctx cache = some (ctx', cache')) :
    (((id, TextureChange.Added) ∈ edits
        ∨ ((id, TextureChange.Modified) ∈ edits
            ∧ (registryGet registry id).isSome)) →
      (texGet cache' id).isSome)
    ∧ ((id, TextureChange.Removed) ∈ edits →
      texGet cache' id = none
        ∧ ∀ t, texGet cache id = some t → t ∈ ctx'.destroyed) := by
  unfold update_textures at h
  rcases Option.bind_eq_some.mp h with ⟨st1, h1, h2⟩
  constructor
  · intro hcase
    cases hcase with
    | inl hadd =>
        exact edits_added_some registry edits st1 (ctx', cache') id hadd hkeys h2
    | inr hmod =>
        have hsome1 : (texGet st1.2 id).isSome :=
          defensive_establishes registry (ctx, cache) st1 id h1 hmod.2
        exact edits_modified_some registry edits st1 (ctx', cache') id
          hmod.1 hkeys hsome1 h2
  · intro hrem
    have hres := edits_removed registry edits st1 (ctx', cache') id hrem hkeys h2
    refine ⟨hres.1, ?_⟩
    intro t ht
    apply hres.2
    exact defensive_preserves registry (ctx, cache) st1 id t h1 ht

/-- C6 demonstration inputs. -/
def demoRegistry : Registry := [(3, { format := YTexFormat.Rgba8Srgb, data := 9 })]

def demoEdits : List (Nat × TextureChange) :=
  [(5, TextureChange.Removed), (3, TextureChange.Added)]

def demoCtx : Ctx :=
  { next_texture := 4, created := [], destroyed := [], updated := [] }

def demoCtxAfter : Ctx :=
  { next_texture := 6, created := [4, 5], destroyed := [2], updated := [] }

theorem C6_texture_cache_convergence_witness :
    ((demoEdits.map Prod.fst).Nodup
      ∧ update_textures demoRegistry demoEdits demoCtx [(5, 2)]
          = some (demoCtxAfter, [(3, 5)]))
    ∧ ((((5, TextureChange.Added) ∈ demoEdits
        ∨ ((5, TextureChange.Modified) ∈ demoEdits
            ∧ (registryGet demoRegistry 5).isSome)) →
        (texGet [(3, 5)] 5).isSome)
      ∧ ((5, TextureChange.Removed) ∈ demoEdits →
        texGet [(3, 5)] 5 = none
          ∧ ∀ t, texGet [(5, 2)] 5 = some t → t ∈ demoCtxAfter.destroyed)) :=
  ⟨⟨by decide, by decide⟩,
    C6_texture_cache_convergence demoRegistry demoEdits demoCtx
      [(5, 2)] 5 demoCtxAfter [(3, 5)] (by decide) (by decide)⟩

/-- C7: contrary to the claim, not every backend texture created by the
cache is destroyed exactly once. A texture id added this frame is both
in the registry (so the defensive pass creates backend texture 0 for
it) and carries an Added edit (which creates backend texture 1 and
overwrites the mapping without deleting texture 0). Teardown then
destroys only texture 1: texture 0 is leaked. -/
theorem C7_added_texture_leak :
    update_textures [(0, { format := YTexFormat.Rgba8Srgb, data := 0 })]
        [(0, TextureChange.Added)]
        { next_texture := 0, created := [], destroyed := [], updated := [] } []
      = some ({ next_texture := 2, created := [0, 1], destroyed := [],
                updated := [] }, [(0, 1)])
    ∧ drop_textures
        { next_texture := 2, created := [0, 1], destroyed := [], updated := [] }
        [(0, 1)]
      = { next_texture := 2, created := [0, 1], destroyed := [1],
          updated := [] } := by
  constructor
  · rfl
  · rfl

/-! ## Submitter (the command loop in paint) -/

/-- A scissor rectangle as passed to ctx.apply_scissor_rect. -/
structure Scissor where
  x : Nat
  y : Nat
  w : Nat
  h : Nat
deriving DecidableEq

/-- The scissor computation in paint:
`max = (pos + size).min(surface)` (u32 addition, wrap explicit) and
`size = max.saturating_sub(pos)` (truncated subtraction). -/
def clampScissor (surface : Nat × Nat) (r : URect) : Scissor :=
  { x := r.posx, y := r.posy,
    w := min ((r.posx + r.sizex) % 2 ^ 32) surface.1 - r.posx,
    h := min ((r.posy + r.sizey) % 2 ^ 32) surface.2 - r.posy }

/-- The skip test in paint:
`pos.x > surface.x || pos.y > surface.y || size.x == 0 || size.y == 0`. -/
def scissorDegenerate (surface : Nat × Nat) (r : URect) : Prop :=
  r.posx > surface.1 ∨ r.posy > surface.2
    ∨ (clampScissor surface r).w = 0 ∨ (clampScissor surface r).h = 0

instance (surface : Nat × Nat) (r : URect) :
    Decidable (scissorDegenerate surface r) := by
  unfold scissorDegenerate
  exact inferInstance

/-- Backend calls issued while painting a frame. -/
inductive RenderCall where
  | delete_vertex_buffer
  | new_vertex_buffer (capBytes : Nat)
  | upload_vertices (data : List YakuiVertex)
  | delete_index_buffer
  | new_index_buffer (capBytes : Nat)
  | upload_indices (data : List Nat)
  | apply_pipeline (p : YPipeline)
  | apply_scissor (x y w h : Nat)
  | apply_bindings (texture : Nat)
  | draw (base count : Nat)
deriving DecidableEq

/-- One iteration of the command loop in paint: pipeline dispatch (an
unknown pipeline skips the command via continue), clip deduplication
against last_clip, degenerate-scissor skip, bindings, draw. Returns the
updated last_clip together with the backend calls issued. -/
def submitCmd (surface : Nat × Nat) (last_clip : Option URect)
    (c : DrawCommand) : Option URect × List RenderCall :=
  match c.pipeline with
  | YPipeline.Other => (last_clip, [])
  | _ =>
      let pipe := RenderCall.apply_pipeline c.pipeline
      let tail := [RenderCall.apply_bindings c.texture,
                   RenderCall.draw c.index_start (c.index_end - c.index_start)]
      if c.clip = last_clip then
        (last_clip, pipe :: tail)
      else
        match c.clip with
        | some rect =>
            if scissorDegenerate surface rect then
              (some rect, [pipe])
            else
              (some rect,
                pipe :: RenderCall.apply_scissor (clampScissor surface rect).x
                    (clampScissor surface rect).y (clampScissor surface rect).w
                    (clampScissor surface rect).h :: tail)
        | none =>
            (none, pipe :: RenderCall.apply_scissor 0 0 surface.1 surface.2
              :: tail)

/-- The command loop in paint, threading last_clip. -/
def submitLoop (surface : Nat × Nat) :
    Option URect → List DrawCommand → List RenderCall
  | _, [] => []
  | lc, c :: cs =>
      (submitCmd surface lc c).2
        ++ submitLoop surface (submitCmd surface lc c).1 cs

/-- The submit phase of paint: walk the compiled commands with
`last_clip = None` initially. -/
def submit (surface : Nat × Nat) (cmds : List DrawCommand) : List RenderCall :=
  submitLoop surface none cmds

def isScissorCall : RenderCall → Bool
  | RenderCall.apply_scissor _ _ _ _ => true
  | _ => false

def isDrawCall : RenderCall → Bool
  | RenderCall.draw _ _ => true
  | _ => false

/-- A command with a renderable pipeline and no clip rectangle. -/
def cNoClip : DrawCommand :=
  { index_start := 0, index_end := 3, texture := 7,
    pipeline := YPipeline.Main, clip := none }

/-- C3 counterexample: last_clip starts as None, which is not distinct
from the clip-absent value. A first command with pipeline Main and no
clip issues its draw with no scissor applied at all. -/
theorem C3_sentinel_counterexample :
    ((submit (800, 600) [cNoClip]).filter isScissorCall).length = 0
    ∧ ((submit (800, 600) [cNoClip]).filter isDrawCall).length = 1 := by
  decide

/-- C3 (amended): last_clip is initialized to None, which equals the
clip-absent value; hence the first command of the list (with a
renderable pipeline) applies a scissor rectangle before its draw call
exactly when its clip is present and non-degenerate; a present
degenerate clip skips the draw, and an absent clip draws with no
scissor call. -/
theorem C3_first_command_clip (surface : Nat × Nat) (c : DrawCommand)
    (hp : c.pipeline ≠ YPipeline.Other) :
    (submitCmd surface none c).2 =
      match c.clip with
      | none =>
          [RenderCall.apply_pipeline c.pipeline,
           RenderCall.apply_bindings c.texture,
           RenderCall.draw c.index_start (c.index_end - c.index_start)]
      | some rect =>
          if scissorDegenerate surface rect then
            [RenderCall.apply_pipeline c.pipeline]
          else
            [RenderCall.apply_pipeline c.pipeline,
             RenderCall.apply_scissor (clampScissor surface rect).x
               (clampScissor surface rect).y (clampScissor surface rect).w
               (clampScissor surface rect).h,
             RenderCall.apply_bindings c.texture,
             RenderCall.draw c.index_start (c.index_end - c.index_start)] := by
  cases hcp : c.pipeline with
  | Other => exact absurd hcp hp
  | Main =>
      cases hclip : c.clip with
      | none => simp [submitCmd, hcp, hclip]
      | some rect =>
          by_cases hdeg : scissorDegenerate surface rect
          · simp [submitCmd, hcp, hclip, hdeg]
          · simp [submitCmd, hcp, hclip, hdeg]
  | Text =>
      cases hclip : c.clip with
      | none => simp [submitCmd, hcp, hclip]
      | some rect =>
          by_cases hdeg : scissorDegenerate surface rect
          · simp [submitCmd, hcp, hclip, hdeg]
          · simp [submitCmd, hcp, hclip, hdeg]

/-- C3 demonstration input: first command with a present, in-range
clip. -/
def cDemoClip : DrawCommand :=
  { index_start := 0, index_end := 6, texture := 7,
    pipeline := YPipeline.Main,
    clip := some { posx := 700, posy := 500, sizex := 200, sizey := 200 } }

theorem C3_first_command_clip_witness :
    cDemoClip.pipeline ≠ YPipeline.Other
    ∧ (submitCmd (800, 600) none cDemoClip).2 =
        match cDemoClip.clip with
        | none =>
            [RenderCall.apply_pipeline cDemoClip.pipeline,
             RenderCall.apply_bindings cDemoClip.texture,
             RenderCall.draw cDemoClip.index_start
               (cDemoClip.index_end - cDemoClip.index_start)]
        | some rect =>
            if scissorDegenerate (800, 600) rect then
              [RenderCall.apply_pipeline cDemoClip.pipeline]
            else
              [RenderCall.apply_pipeline cDemoClip.pipeline,
               RenderCall.apply_scissor (clampScissor (800, 600) rect).x
                 (clampScissor (800, 600) rect).y
                 (clampScissor (800, 600) rect).w
                 (clampScissor (800, 600) rect).h,
               RenderCall.apply_bindings cDemoClip.texture,
               RenderCall.draw cDemoClip.index_start
                 (cDemoClip.index_end - cDemoClip.index_start)] :=
  ⟨by decide, C3_first_command_clip (800, 600) cDemoClip (by decide)⟩

/-- A command whose clip lies fully outside an 800 by 600 surface. -/
def cOutside : DrawCommand :=
  { index_start := 0, index_end := 3, texture := 7,
    pipeline := YPipeline.Main,
    clip := some { posx := 900, posy := 100, sizex := 50, sizey := 50 } }

/-- C4 counterexample: the degenerate-clip skip only runs when the
command's clip differs from last_clip. Two consecutive commands
carrying the same fully-outside clip: the first is skipped, but the
second (whose clip now equals last_clip) issues a draw call, so it is
not true that every command carrying a degenerate clip is skipped. -/
theorem C4_degenerate_clip_counterexample :
    submit (800, 600) [cOutside, cOutside] =
      [RenderCall.apply_pipeline YPipeline.Main,
       RenderCall.apply_pipeline YPipeline.Main,
       RenderCall.apply_bindings 7, RenderCall.draw 0 3]
    ∧ ((submit (800, 600) [cOutside, cOutside]).filter isDrawCall).length
        = 1 := by
  decide

/-- C4 (amended): for every draw command whose clip rectangle is
present and differs from the submitter's current last_clip state, the
clip is intersected with the surface bounds, a degenerate intersection
skips the command's draw call entirely (no scissor, no draw), and a
non-degenerate one applies the clamped scissor before the draw; a
command whose clip equals last_clip is drawn without re-deciding its
scissor. -/
theorem C4_clip_intersection (surface : Nat × Nat) (last_clip : Option URect)
    (c : DrawCommand) (rect : URect) (hclip : c.clip = some rect)
    (hne : c.clip ≠ last_clip) (hp : c.pipeline ≠ YPipeline.Other) :
    (submitCmd surface last_clip c).2 =
      if scissorDegenerate surface rect then
        [RenderCall.apply_pipeline c.pipeline]
      else
        [RenderCall.apply_pipeline c.pipeline,
         RenderCall.apply_scissor (clampScissor surface rect).x
           (clampScissor surface rect).y (clampScissor surface rect).w
           (clampScissor surface rect).h,
         RenderCall.apply_bindings c.texture,
         RenderCall.draw c.index_start (c.index_end - c.index_start)] := by
  cases hcp : c.pipeline with
  | Other => exact absurd hcp hp
  | Main =>
      by_cases hdeg : scissorDegenerate surface rect
      · simp [submitCmd, hcp, hclip, hdeg, if_neg hne]
        rw [hclip] at hne
        simp [hne]
      · simp [submitCmd, hcp, hclip, hdeg, if_neg hne]
        rw [hclip] at hne
        simp [hne]
  | Text =>
      by_cases hdeg : scissorDegenerate surface rect
      · simp [submitCmd, hcp, hclip, hdeg, if_neg hne]
        rw [hclip] at hne
        simp [hne]
      · simp [submitCmd, hcp, hclip, hdeg, if_neg hne]
        rw [hclip] at hne
        simp [hne]

theorem C4_clip_intersection_witness :
    (cDemoClip.clip = some { posx := 700, posy := 500, sizex := 200, sizey := 200 }
      ∧ cDemoClip.clip ≠ (none : Option URect)
      ∧ cDemoClip.pipeline ≠ YPipeline.Other
      ∧ (submitCmd (800, 600) none cDemoClip).2 =
          if scissorDegenerate (800, 600)
              { posx := 700, posy := 500, sizex := 200, sizey := 200 } then
            [RenderCall.apply_pipeline cDemoClip.pipeline]
          else
            [RenderCall.apply_pipeline cDemoClip.pipeline,
             RenderCall.apply_scissor
               (clampScissor (800, 600)
                 { posx := 700, posy := 500, sizex := 200, sizey := 200 }).x
               (clampScissor (800, 600)
                 { posx := 700, posy := 500, sizex := 200, sizey := 200 }).y
               (clampScissor (800, 600)
                 { posx := 700, posy := 500, sizex := 200, sizey := 200 }).w
               (clampScissor (800, 600)
                 { posx := 700, posy := 500, sizex := 200, sizey := 200 }).h,
             RenderCall.apply_bindings cDemoClip.texture,
             RenderCall.draw cDemoClip.index_start
               (cDemoClip.index_end - cDemoClip.index_start)])
    ∧ (cOutside.clip = some { posx := 900, posy := 100, sizex := 50, sizey := 50 }
      ∧ cOutside.clip ≠ (none : Option URect)
      ∧ cOutside.pipeline ≠ YPipeline.Other
      ∧ (submitCmd (800, 600) none cOutside).2 =
          if scissorDegenerate (800, 600)
              { posx := 900, posy := 100, sizex := 50, sizey := 50 } then
            [RenderCall.apply_pipeline cOutside.pipeline]
          else
            [RenderCall.apply_pipeline cOutside.pipeline,
             RenderCall.apply_scissor
               (clampScissor (800, 600)
                 { posx := 900, posy := 100, sizex := 50, sizey := 50 }).x
               (clampScissor (800, 600)
                 { posx := 900, posy := 100, sizex := 50, sizey := 50 }).y
               (clampScissor (800, 600)
                 { posx := 900, posy := 100, sizex := 50, sizey := 50 }).w
               (clampScissor (800, 600)
                 { posx := 900, posy := 100, sizex := 50, sizey := 50 }).h,
             RenderCall.apply_bindings cOutside.texture,
             RenderCall.draw cOutside.index_start
               (cOutside.index_end - cOutside.index_start)]) :=
  ⟨⟨by decide, by decide, by decide,
      C4_clip_intersection (800, 600) none cDemoClip
        { posx := 700, posy := 500, sizex := 200, sizey := 200 }
        (by decide) (by decide) (by decide)⟩,
    ⟨by decide, by decide, by decide,
      C4_clip_intersection (800, 600) none cOutside
        { posx := 900, posy := 100, sizex := 50, sizey := 50 }
        (by decide) (by decide) (by decide)⟩⟩

/-! ## Shared geometry buffers and the paint entry point -/

/-- size_of::<yakui_core::paint::Vertex>() in bytes (two Vec2 and one
Vec4 of f32). -/
def vertex_byte_size : Nat := 32

/-- size_of::<u16>() in bytes. -/
def index_byte_size : Nat := 2

/-- YakuiMiniquadState: the adapter state the claims are about — the
texture cache, the default texture, the byte capacities of the two
shared buffers (what ctx.buffer_size returns for self.vertices and
self.indices) and the retained command list. -/
structure YakuiMiniquadState where
  textures : TexMap
  default_texture : Nat
  vertices_cap : Nat
  indices_cap : Nat
  commands : List DrawCommand
deriving DecidableEq

/-- Required vertex upload size in bytes:
`draw_vertices.len() * size_of::<Vertex>()`. -/
def frameVertexBytes (meshes : List Mesh) : Nat :=
  totalVertices meshes * vertex_byte_size

/-- Required index upload size in bytes:
`draw_indices.len() * size_of::<u16>()`. -/
def frameIndexBytes (meshes : List Mesh) : Nat :=
  totalIndices meshes * index_byte_size

/-- update_buffers (lib.rs): compile the frame, then, independently for
each shared buffer, delete and recreate it when the required byte size
exceeds the current capacity and upload the data, or upload in place
otherwise; finally replace the retained command list. The source hands
the byte count to BufferSource::empty::<T>, which allocates that many
elements of size_of::<T> bytes each, so a recreated buffer's byte
capacity is the byte count times the element size. -/
def update_buffers (st : YakuiMiniquadState) (meshes : List Mesh) :
    YakuiMiniquadState × List RenderCall :=
  let compiled := compileFrame st.textures st.default_texture meshes
  let dv := compiled.1
  let di := compiled.2.1
  let dc := compiled.2.2
  let vbytes := dv.length * vertex_byte_size
  let vcap := if st.vertices_cap < vbytes then vbytes * vertex_byte_size
    else st.vertices_cap
  let vcalls := if st.vertices_cap < vbytes then
      [RenderCall.delete_vertex_buffer,
       RenderCall.new_vertex_buffer (vbytes * vertex_byte_size),
       RenderCall.upload_vertices dv]
    else [RenderCall.upload_vertices dv]
  let ibytes := di.length * index_byte_size
  let icap := if st.indices_cap < ibytes then ibytes * index_byte_size
    else st.indices_cap
  let icalls := if st.indices_cap < ibytes then
      [RenderCall.delete_index_buffer,
       RenderCall.new_index_buffer (ibytes * index_byte_size),
       RenderCall.upload_indices di]
    else [RenderCall.upload_indices di]
  ({ st with vertices_cap := vcap, indices_cap := icap, commands := dc },
    vcalls ++ icalls)

/-- paint (lib.rs): reconcile the texture cache, short-circuit on an
empty mesh list, otherwise update the buffers and submit the compiled
commands. -/
def paint (ctx : Ctx) (st : YakuiMiniquadState) (registry : Registry)
    (edits : List (Nat × TextureChange)) (meshes : List Mesh)
    (surface : Nat × Nat) :
    Option (Ctx × YakuiMiniquadState × List RenderCall) :=
  (update_textures registry edits ctx st.textures).bind (fun p =>
    let st1 := { st with textures := p.2 }
    if meshes.isEmpty then
      some (p.1, st1, [])
    else
      let ub := update_buffers st1 meshes
      some (p.1, ub.1, ub.2 ++ submit surface ub.1.commands))

theorem compileFrame_dv_length (texmap : TexMap) (default_texture : Nat)
    (meshes : List Mesh) :
    ((compileFrame texmap default_texture meshes).1).length =
      totalVertices meshes := by
  rw [compileFrame_eq]
  exact repackedVertices_length meshes

theorem compileFrame_di_length (texmap : TexMap) (default_texture : Nat)
    (meshes : List Mesh) :
    ((compileFrame texmap default_texture meshes).2.1).length =
      totalIndices meshes := by
  rw [compileFrame_eq]
  exact rewrittenIndices_length 0 meshes

/-- update_buffers in closed form, with the growth conditions expressed
through frameVertexBytes / frameIndexBytes. -/
theorem update_buffers_spec (st : YakuiMiniquadState) (meshes : List Mesh) :
    update_buffers st meshes =
      ({ st with
          vertices_cap := if st.vertices_cap < frameVertexBytes meshes then
              frameVertexBytes meshes * vertex_byte_size
            else st.vertices_cap,
          indices_cap := if st.indices_cap < frameIndexBytes meshes then
              frameIndexBytes meshes * index_byte_size
            else st.indices_cap,
          commands := (compileFrame st.textures st.default_texture meshes).2.2 },
        (if st.vertices_cap < frameVertexBytes meshes then
            [RenderCall.delete_vertex_buffer,
             RenderCall.new_vertex_buffer
               (frameVertexBytes meshes * vertex_byte_size),
             RenderCall.upload_vertices
               ((compileFrame st.textures st.default_texture meshes).1)]
          else
            [RenderCall.upload_vertices
              ((compileFrame st.textures st.default_texture meshes).1)])
          ++ (if st.indices_cap < frameIndexBytes meshes then
            [RenderCall.delete_index_buffer,
             RenderCall.new_index_buffer
               (frameIndexBytes meshes * index_byte_size),
             RenderCall.upload_indices
               ((compileFrame st.textures st.default_texture meshes).2.1)]
          else
            [RenderCall.upload_indices
              ((compileFrame st.textures st.default_texture meshes).2.1)])) := by
  unfold update_buffers frameVertexBytes frameIndexBytes
  simp only [compileFrame_dv_length, compileFrame_di_length]

/-- Iterating update_buffers over a sequence of frames. -/
def runFrames (st : YakuiMiniquadState) (frames : List (List Mesh)) :
    YakuiMiniquadState :=
  frames.foldl (fun s f => (update_buffers s f).1) st

theorem update_buffers_cap_mono (st : YakuiMiniquadState) (f : List Mesh) :
    st.vertices_cap ≤ (update_buffers st f).1.vertices_cap
      ∧ st.indices_cap ≤ (update_buffers st f).1.indices_cap := by
  rw [update_buffers_spec]
  constructor
  · by_cases h : st.vertices_cap < frameVertexBytes f
    · simp only [h, if_pos]
      have : frameVertexBytes f ≤ frameVertexBytes f * vertex_byte_size :=
        Nat.le_mul_of_pos_right _ (by decide)
      omega
    · simp [h]
  · by_cases h : st.indices_cap < frameIndexBytes f
    · simp only [h, if_pos]
      have : frameIndexBytes f ≤ frameIndexBytes f * index_byte_size :=
        Nat.le_mul_of_pos_right _ (by decide)
      omega
    · simp [h]

theorem update_buffers_cap_covers (st : YakuiMiniquadState) (f : List Mesh) :
    frameVertexBytes f ≤ (update_buffers st f).1.vertices_cap
      ∧ frameIndexBytes f ≤ (update_buffers st f).1.indices_cap := by
  rw [update_buffers_spec]
  constructor
  · by_cases h : st.vertices_cap < frameVertexBytes f
    · simp only [h, if_pos]
      exact Nat.le_mul_of_pos_right _ (by decide)
    · show frameVertexBytes f ≤
        (if st.vertices_cap < frameVertexBytes f then
          frameVertexBytes f * vertex_byte_size else st.vertices_cap)
      rw [if_neg h]
      omega
  · by_cases h : st.indices_cap < frameIndexBytes f
    · simp only [h, if_pos]
      exact Nat.le_mul_of_pos_right _ (by decide)
    · show frameIndexBytes f ≤
        (if st.indices_cap < frameIndexBytes f then
          frameIndexBytes f * index_byte_size else st.indices_cap)
      rw [if_neg h]
      omega

theorem runFrames_cap_mono (st : YakuiMiniquadState) (frames : List (List Mesh)) :
    st.vertices_cap ≤ (runFrames st frames).vertices_cap
      ∧ st.indices_cap ≤ (runFrames st frames).indices_cap := by
  induction frames generalizing st with
  | nil => exact ⟨Nat.le_refl _, Nat.le_refl _⟩
  | cons f rest ih =>
      have h1 := update_buffers_cap_mono st f
      have h2 := ih (update_buffers st f).1
      exact ⟨Nat.le_trans h1.1 h2.1, Nat.le_trans h1.2 h2.2⟩

/-- C5: for each shared buffer independently, the capacity after frame
i covers every required byte size seen so far, capacity never shrinks,
an in-capacity frame keeps the buffer (no delete, upload in place), and
an over-capacity frame deletes and recreates the buffer. -/
theorem C5_buffer_growth (st0 : YakuiMiniquadState) (frames : List (List Mesh)) :
    (∀ (i : Nat) (f : List Mesh), f ∈ frames.take i →
        frameVertexBytes f ≤ (runFrames st0 (frames.take i)).vertices_cap
          ∧ frameIndexBytes f ≤ (runFrames st0 (frames.take i)).indices_cap)
    ∧ (∀ (st : YakuiMiniquadState) (f : List Mesh),
        st.vertices_cap ≤ (update_buffers st f).1.vertices_cap
          ∧ st.indices_cap ≤ (update_buffers st f).1.indices_cap)
    ∧ (∀ (st : YakuiMiniquadState) (f : List Mesh),
        frameVertexBytes f ≤ st.vertices_cap →
          (update_buffers st f).1.vertices_cap = st.vertices_cap
            ∧ RenderCall.delete_vertex_buffer ∉ (update_buffers st f).2
            ∧ RenderCall.upload_vertices
                ((compileFrame st.textures st.default_texture f).1)
                ∈ (update_buffers st f).2)
    ∧ (∀ (st : YakuiMiniquadState) (f : List Mesh),
        st.vertices_cap < frameVertexBytes f →
          RenderCall.delete_vertex_buffer ∈ (update_buffers st f).2
            ∧ (update_buffers st f).1.vertices_cap
                = frameVertexBytes f * vertex_byte_size
            ∧ RenderCall.upload_vertices
                ((compileFrame st.textures st.default_texture f).1)
                ∈ (update_buffers st f).2)
    ∧ (∀ (st : YakuiMiniquadState) (f : List Mesh),
        frameIndexBytes f ≤ st.indices_cap →
          (update_buffers st f).1.indices_cap = st.indices_cap
            ∧ RenderCall.delete_index_buffer ∉ (update_buffers st f).2
            ∧ RenderCall.upload_indices
                ((compileFrame st.textures st.default_texture f).2.1)
                ∈ (update_buffers st f).2)
    ∧ (∀ (st : YakuiMiniquadState) (f : List Mesh),
        st.indices_cap < frameIndexBytes f →
          RenderCall.delete_index_buffer ∈ (update_buffers st f).2
            ∧ (update_buffers st f).1.indices_cap
                = frameIndexBytes f * index_byte_size
            ∧ RenderCall.upload_indices
                ((compileFrame st.textures st.default_texture f).2.1)
                ∈ (update_buffers st f).2) := by
  refine ⟨?_, update_buffers_cap_mono, ?_, ?_, ?_, ?_⟩
  · intro i f hf
    rcases List.mem_iff_append.mp hf with ⟨l1, l2, hsplit⟩
    rw [hsplit]
    have h1 : runFrames st0 (l1 ++ f :: l2) =
        runFrames (update_buffers (runFrames st0 l1) f).1 l2 := by
      simp [runFrames, List.foldl_append]
    rw [h1]
    have hcov := update_buffers_cap_covers (runFrames st0 l1) f
    have hmono := runFrames_cap_mono (update_buffers (runFrames st0 l1) f).1 l2
    exact ⟨Nat.le_trans hcov.1 hmono.1, Nat.le_trans hcov.2 hmono.2⟩
  · intro st f h
    have hnl : ¬ st.vertices_cap < frameVertexBytes f := by omega
    rw [update_buffers_spec]
    refine ⟨by simp [hnl], ?_, ?_⟩
    · by_cases hi : st.indices_cap < frameIndexBytes f
      · simp [hnl, hi]
      · simp [hnl, hi]
    · by_cases hi : st.indices_cap < frameIndexBytes f
      · simp [hnl, hi]
      · simp [hnl, hi]
  · intro st f h
    rw [update_buffers_spec]
    refine ⟨?_, by simp [h], ?_⟩
    · by_cases hi : st.indices_cap < frameIndexBytes f
      · simp [h, hi]
      · simp [h, hi]
    · by_cases hi : st.indices_cap < frameIndexBytes f
      · simp [h, hi]
      · simp [h, hi]
  · intro st f h
    have hnl : ¬ st.indices_cap < frameIndexBytes f := by omega
    rw [update_buffers_spec]
    refine ⟨by simp [hnl], ?_, ?_⟩
    · by_cases hv : st.vertices_cap < frameVertexBytes f
      · simp [hnl, hv]
      · simp [hnl, hv]
    · by_cases hv : st.vertices_cap < frameVertexBytes f
      · simp [hnl, hv]
      · simp [hnl, hv]
  · intro st f h
    rw [update_buffers_spec]
    refine ⟨?_, by simp [h], ?_⟩
    · by_cases hv : st.vertices_cap < frameVertexBytes f
      · simp [h, hv]
      · simp [h, hv]
    · by_cases hv : st.vertices_cap < frameVertexBytes f
      · simp [h, hv]
      · simp [h, hv]

/-- The adapter's initial buffer capacities (one Vertex and one u16). -/
def demoState0 : YakuiMiniquadState :=
  { textures := [], default_texture := 7, vertices_cap := 32,
    indices_cap := 2, commands := [] }

theorem C5_buffer_growth_witness :
    (demoMeshes ∈ [demoMeshes, [demoMesh1]].take 2
      ∧ (frameVertexBytes demoMeshes ≤
            (runFrames demoState0 ([demoMeshes, [demoMesh1]].take 2)).vertices_cap
          ∧ frameIndexBytes demoMeshes ≤
            (runFrames demoState0 ([demoMeshes, [demoMesh1]].take 2)).indices_cap))
    ∧ (demoState0.vertices_cap < frameVertexBytes demoMeshes
      ∧ (RenderCall.delete_vertex_buffer ∈ (update_buffers demoState0 demoMeshes).2
          ∧ (update_buffers demoState0 demoMeshes).1.vertices_cap
              = frameVertexBytes demoMeshes * vertex_byte_size
          ∧ RenderCall.upload_vertices
              ((compileFrame demoState0.textures demoState0.default_texture
                demoMeshes).1)
              ∈ (update_buffers demoState0 demoMeshes).2)) :=
  ⟨⟨by decide,
      (C5_buffer_growth demoState0 [demoMeshes, [demoMesh1]]).1 2 demoMeshes
        (by decide)⟩,
    ⟨by decide,
      (C5_buffer_growth demoState0 [demoMeshes, [demoMesh1]]).2.2.2.1
        demoState0 demoMeshes (by decide)⟩⟩

/-- C9: an empty mesh list short-circuits paint: the texture diff is
still reconciled, but no backend call is issued (no upload, no
reallocation, no scissor or pipeline change, zero draw calls), and the
shared buffer capacities and the retained command list are unchanged. -/
theorem C9_empty_frame (ctx : Ctx) (st : YakuiMiniquadState)
    (registry : Registry) (edits : List (Nat × TextureChange))
    (surface : Nat × Nat) (ctx' : Ctx) (m : TexMap)
    (h : update_textures registry edits ctx st.textures = some (ctx', m)) :
    paint ctx st registry edits [] surface =
      some (ctx', { st with textures := m }, []) := by
  unfold paint
  rw [h]
  rfl

/-- C9 demonstration input: cached texture 2 under id 5, one retained
command. -/
def demoState1 : YakuiMiniquadState :=
  { textures := [(5, 2)], default_texture := 7, vertices_cap := 32,
    indices_cap := 2, commands := [cNoClip] }

theorem C9_empty_frame_witness :
    update_textures demoRegistry demoEdits demoCtx demoState1.textures
        = some (demoCtxAfter, [(3, 5)])
    ∧ paint demoCtx demoState1 demoRegistry demoEdits [] (800, 600) =
        some (demoCtxAfter, { demoState1 with textures := [(3, 5)] }, []) :=
  ⟨by decide,
    C9_empty_frame demoCtx demoState1 demoRegistry demoEdits (800, 600)
      demoCtxAfter [(3, 5)] (by decide)⟩

/-! ### Determinism of an unchanged frame (C8) -/

/-- The buffer-upload events of a call trace. -/
def uploadsOf (calls : List RenderCall) : List RenderCall :=
  calls.filter (fun c => match c with
    | RenderCall.upload_vertices _ => true
    | RenderCall.upload_indices _ => true
    | _ => false)

theorem uploadsOf_append (a b : List RenderCall) :
    uploadsOf (a ++ b) = uploadsOf a ++ uploadsOf b := by
  simp [uploadsOf]

theorem submitCmd_no_uploads (surface : Nat × Nat) (lc : Option URect)
    (c : DrawCommand) :
    uploadsOf (submitCmd surface lc c).2 = [] := by
  unfold submitCmd
  cases hcp : c.pipeline
  case Other => simp [uploadsOf]
  all_goals
    by_cases hcl : c.clip = lc
  all_goals simp only [hcl, if_pos, if_neg, if_true, if_false]
  case pos => simp [uploadsOf]
  case pos => simp [uploadsOf]
  all_goals
    cases hclip : c.clip with
    | none => simp [uploadsOf, if_neg hcl]
    | some rect =>
        by_cases hdeg : scissorDegenerate surface rect
        · simp [uploadsOf, if_neg hcl, hdeg]
        · simp [uploadsOf, if_neg hcl, hdeg]

theorem submitLoop_no_uploads (surface : Nat × Nat) :
    ∀ (cmds : List DrawCommand) (lc : Option URect),
      uploadsOf (submitLoop surface lc cmds) = [] := by
  intro cmds
  induction cmds with
  | nil => intro lc; rfl
  | cons c cs ih =>
      intro lc
      show uploadsOf ((submitCmd surface lc c).2
        ++ submitLoop surface (submitCmd surface lc c).1 cs) = []
      rw [uploadsOf_append, submitCmd_no_uploads, ih]
      rfl

theorem submit_no_uploads (surface : Nat × Nat) (cmds : List DrawCommand) :
    uploadsOf (submit surface cmds) = [] :=
  submitLoop_no_uploads surface cmds none

theorem uploads_update_buffers (st : YakuiMiniquadState) (f : List Mesh) :
    uploadsOf (update_buffers st f).2 =
      [RenderCall.upload_vertices
        ((compileFrame st.textures st.default_texture f).1),
       RenderCall.upload_indices
        ((compileFrame st.textures st.default_texture f).2.1)] := by
  rw [update_buffers_spec]
  by_cases hv : st.vertices_cap < frameVertexBytes f <;>
    by_cases hi : st.indices_cap < frameIndexBytes f <;>
    simp [hv, hi, uploadsOf]

theorem update_buffers_textures (st : YakuiMiniquadState) (f : List Mesh) :
    (update_buffers st f).1.textures = st.textures := by
  rw [update_buffers_spec]

theorem update_buffers_default (st : YakuiMiniquadState) (f : List Mesh) :
    (update_buffers st f).1.default_texture = st.default_texture := by
  rw [update_buffers_spec]

theorem update_buffers_commands (st : YakuiMiniquadState) (f : List Mesh) :
    (update_buffers st f).1.commands =
      (compileFrame st.textures st.default_texture f).2.2 := by
  rw [update_buffers_spec]

/-- A second update_buffers on a state that already fits the frame
leaves the state unchanged. -/
theorem update_buffers_of_fits (st : YakuiMiniquadState) (f : List Mesh)
    (hv : frameVertexBytes f ≤ st.vertices_cap)
    (hi : frameIndexBytes f ≤ st.indices_cap)
    (hc : st.commands = (compileFrame st.textures st.default_texture f).2.2) :
    (update_buffers st f).1 = st := by
  rw [update_buffers_spec]
  rw [if_neg (by omega), if_neg (by omega), ← hc]

theorem registryGet_isSome_of_mem (registry : Registry) (k : Nat)
    (v : YTexture) (h : (k, v) ∈ registry) :
    (registryGet registry k).isSome := by
  induction registry with
  | nil => cases h
  | cons e rest ih =>
      match e, h with
      | (a, b), h =>
          by_cases ha : a = k
          · simp [registryGet, ha]
          · cases List.mem_cons.mp h with
            | inl h1 =>
                exact absurd (congrArg Prod.fst h1).symm ha
            | inr h1 =>
                simp only [registryGet, if_neg ha]
                exact ih h1

theorem update_textures_nil_edits (registry : Registry) (ctx : Ctx)
    (cache : TexMap) :
    update_textures registry [] ctx cache =
      registry.foldlM defensiveStep (ctx, cache) := by
  unfold update_textures
  cases h : registry.foldlM defensiveStep (ctx, cache) with
  | none => rfl
  | some st => rfl

/-- After a frame with an empty diff, a second empty-diff
reconciliation is a no-op. -/
theorem update_textures_nil_noop (registry : Registry) (ctx : Ctx)
    (cache : TexMap) (ctx1 : Ctx) (m1 : TexMap)
    (h : update_textures registry [] ctx cache = some (ctx1, m1)) :
    update_textures registry [] ctx1 m1 = some (ctx1, m1) := by
  rw [update_textures_nil_edits] at h ⊢
  apply defensive_noop
  intro entry hentry
  apply defensive_establishes registry (ctx, cache) (ctx1, m1) entry.1 h
  exact registryGet_isSome_of_mem registry entry.1 entry.2 (by simpa using hentry)

theorem with_textures_self (x : YakuiMiniquadState) (m : TexMap)
    (hx : x.textures = m) : { x with textures := m } = x := by
  cases x
  simp only at hx
  rw [hx]

/-- C8: submitting an identical, unchanged frame twice in a row (same
mesh list, empty texture diff both times) is deterministic: the second
paint returns the same backend state and the same adapter state (hence
the identical draw-command list) and issues byte-identical vertex and
index buffer uploads. -/
theorem C8_identical_frame (ctx : Ctx) (st : YakuiMiniquadState)
    (registry : Registry) (meshes : List Mesh) (surface : Nat × Nat)
    (ctx1 : Ctx) (st1 : YakuiMiniquadState) (tr1 : List RenderCall)
    (h1 : paint ctx st registry [] meshes surface = some (ctx1, st1, tr1)) :
    ∃ tr2, paint ctx1 st1 registry [] meshes surface = some (ctx1, st1, tr2)
      ∧ uploadsOf tr2 = uploadsOf tr1 := by
  unfold paint at h1 ⊢
  rcases Option.bind_eq_some.mp h1 with ⟨p, hp, hrest⟩
  obtain ⟨ctxA, m1⟩ := p
  have hno := update_textures_nil_noop registry ctx st.textures ctxA m1 hp
  by_cases hemp : meshes.isEmpty
  · rw [if_pos hemp] at hrest
    simp only [Option.some.injEq, Prod.mk.injEq] at hrest
    obtain ⟨rfl, rfl, rfl⟩ := hrest
    refine ⟨[], ?_, rfl⟩
    show (update_textures registry [] ctxA m1).bind _ = _
    rw [hno]
    simp only [Option.some_bind]
    rw [if_pos hemp]
  · rw [if_neg hemp] at hrest
    simp only [Option.some.injEq, Prod.mk.injEq] at hrest
    obtain ⟨rfl, rfl, rfl⟩ := hrest
    have htex : ((update_buffers { st with textures := m1 } meshes).1).textures
        = m1 := update_buffers_textures _ _
    have hdft : ((update_buffers { st with textures := m1 } meshes).1).default_texture
        = st.default_texture := update_buffers_default _ _
    have hcov := update_buffers_cap_covers { st with textures := m1 } meshes
    have hcmd : ((update_buffers { st with textures := m1 } meshes).1).commands
        = (compileFrame
            ((update_buffers { st with textures := m1 } meshes).1).textures
            ((update_buffers { st with textures := m1 } meshes).1).default_texture
            meshes).2.2 := by
      rw [htex, hdft]
      exact update_buffers_commands { st with textures := m1 } meshes
    have hub2 : (update_buffers
        ((update_buffers { st with textures := m1 } meshes).1) meshes).1
          = (update_buffers { st with textures := m1 } meshes).1 :=
      update_buffers_of_fits _ meshes hcov.1 hcov.2 hcmd
    refine ⟨(update_buffers
        ((update_buffers { st with textures := m1 } meshes).1) meshes).2
      ++ submit surface
          ((update_buffers { st with textures := m1 } meshes).1).commands, ?_, ?_⟩
    · rw [htex, hno]
      simp only [Option.some_bind]
      rw [with_textures_self _ m1 htex]
      rw [if_neg hemp]
      simp only [hub2]
    · rw [uploadsOf_append, uploadsOf_append, submit_no_uploads,
        uploads_update_buffers, uploads_update_buffers, htex, hdft]

/-- C8 demonstration outputs of the first paint. -/
def demoCmd1 : DrawCommand :=
  { index_start := 0, index_end := 3, texture := 7,
    pipeline := YPipeline.Main, clip := none }

def demoCmd2 : DrawCommand :=
  { index_start := 3, index_end := 4, texture := 2,
    pipeline := YPipeline.Text,
    clip := some { posx := 0, posy := 0, sizex := 10, sizey := 10 } }

def demoSt1 : YakuiMiniquadState :=
  { textures := [(3, 4), (5, 2)], default_texture := 7,
    vertices_cap := 3072, indices_cap := 16,
    commands := [demoCmd1, demoCmd2] }

def demoCtx1 : Ctx :=
  { next_texture := 5, created := [4], destroyed := [], updated := [] }

def demoTr1 : List RenderCall :=
  [RenderCall.delete_vertex_buffer, RenderCall.new_vertex_buffer 3072,
   RenderCall.upload_vertices ((compileFrame [(3, 4), (5, 2)] 7 demoMeshes).1),
   RenderCall.delete_index_buffer, RenderCall.new_index_buffer 16,
   RenderCall.upload_indices [0, 1, 0, 2],
   RenderCall.apply_pipeline YPipeline.Main, RenderCall.apply_bindings 7,
   RenderCall.draw 0 3,
   RenderCall.apply_pipeline YPipeline.Text, RenderCall.apply_scissor 0 0 10 10,
   RenderCall.apply_bindings 2, RenderCall.draw 3 1]

theorem C8_identical_frame_witness :
    paint demoCtx demoState1 demoRegistry [] demoMeshes (800, 600)
        = some (demoCtx1, demoSt1, demoTr1)
    ∧ ∃ tr2, paint demoCtx1 demoSt1 demoRegistry [] demoMeshes (800, 600)
          = some (demoCtx1, demoSt1, tr2)
        ∧ uploadsOf tr2 = uploadsOf demoTr1 :=
  ⟨by decide, C8_identical_frame demoCtx demoState1 demoRegistry demoMeshes
      (800, 600) demoCtx1 demoSt1 demoTr1 (by decide)⟩

end YakuiMiniquad
